import Mathlib

/-!
# Verification of the EPSS score-tracking engine

A shallow embedding, in Lean 4, of the core of the `epss` Python package
(`epss/epss.py`, `epss/client.py`, `epss/cli.py`, `epss/util.py`), together
with theorems settling the frozen claims about its specification.

Modelling conventions:

* Polars dataframes holding score rows become `List ScoreRow`; changelog
  dataframes become `List ChangeRow`.  Row order models dataframe row order.
* 64-bit floats become `ℚ`.  Non-finite floats (`inf`/`nan`, produced by the
  source when a percentage delta divides by zero) are modelled as `none` in an
  `Option ℚ` column; all claims under verification avoid that corner.
* `polars.round(5)` becomes `round5` (round to nearest, scaled by `10^5`);
  tie-breaking at half-ulp differs from the float implementation but no claim
  depends on a tie.
* Calendar dates become day numbers (`Int`, days since 1970-01-01, computed by
  `mkDate` from a year/month/day triple), so date comparison and
  `timedelta(days = n)` arithmetic are exact.
* String comparison (polars sorts the `cve` column lexicographically) becomes
  `charListLe` on the underlying character lists.
* `DataFrame.sort` becomes a (stable) insertion sort `sortB`; the source's
  sort is not guaranteed stable, but every use either has no ties on the sort
  key or ties only between identical rows, so any correct sort yields the
  same list.
* The filesystem caches become explicit state: a snapshot store
  `SnapStore := Int → List SnapEntry` (the snapshot files carry no date
  column — the source's `download_scores_by_date` discards the result of
  `with_columns(date=date)` — so the date is attached on read from the file
  name, exactly as `read_dataframe` does) and a changelog store
  `Clog := Int → Option (List ChangeRow)`.
* Thread-pool fan-out (`ThreadPoolExecutor` + `as_completed`) is modelled by
  processing tasks in submission order; the claims under verification either
  re-sort afterwards or are about cache state keyed by distinct dates, so
  completion order is immaterial to them (the inherently concurrent claim C8
  is reported as not statable).
-/

/-! ## Definitions: shallow embedding of the source -/

/-- Lexicographic order (by code point) on character lists; models the order
polars uses on a string column. -/
def charListLe : List Char → List Char → Bool
  | [], _ => true
  | _ :: _, [] => false
  | a :: as, b :: bs => if a = b then charListLe as bs else decide (a < b)

/-- Lexicographic order on strings. -/
def strLe (s t : String) : Bool := charListLe s.data t.data

/-- Insertion step of a stable insertion sort over a boolean relation. -/
def insertB (le : α → α → Bool) (a : α) : List α → List α
  | [] => [a]
  | b :: l => if le a b then a :: b :: l else b :: insertB le a l

/-- Stable insertion sort over a boolean relation; models `DataFrame.sort`. -/
def sortB (le : α → α → Bool) : List α → List α
  | [] => []
  | a :: l => insertB le a (sortB le l)

/-- Day number of the civil date `y-m-d` (days since 1970-01-01), the
standard civil-to-day-number conversion: `mkDate y m d` is
order-isomorphic to `datetime.date(y, m, d)` and `timedelta(days = n)`
becomes integer addition. -/
def mkDate (y m d : Nat) : Int :=
  let yy := if m ≤ 2 then y - 1 else y
  let era := yy / 400
  let yoe := yy % 400
  let mp := (m + 9) % 12
  let doy := (153 * mp + 2) / 5 + d - 1
  let doe := yoe * 365 + yoe / 4 - yoe / 100 + doy
  ((era * 146097 + doe : Nat) : Int) - 719468

/-- Model of `util.iter_dates_in_range` (util.py:262-268): every calendar
date from `min_date` to `max_date` inclusive; empty when the range is
inverted (`range(delta.days + 1)` on a negative delta). -/
def iter_dates_in_range (min_date max_date : Int) : List Int :=
  (List.range (max_date - min_date + 1).toNat).map (fun i => min_date + (i : Int))

/-- Model of `util.iter_pairwise` (util.py:348-363): adjacent pairs of a
sequence. -/
def iter_pairwise : List α → List (α × α)
  | [] => []
  | [_] => []
  | x :: y :: rest => (x, y) :: iter_pairwise (y :: rest)

/-- One row of a per-date score dataframe: columns `cve`, `date`, `epss`,
`percentile` (constants.py:31-35). -/
structure ScoreRow where
  cve : String
  date : Int
  epss : ℚ
  percentile : ℚ
deriving DecidableEq, Repr

/-- One row of a changelog dataframe — exactly the columns selected at the
end of `epss.get_diff` (epss.py:642-654).  The `old_*`, change and
percentage columns are nullable in the source (`shift` introduces nulls),
hence `Option`; for the percentage columns `none` additionally stands for
the non-finite float produced when the old value is zero. -/
structure ChangeRow where
  cve : String
  date : Int
  epss : ℚ
  percentile : ℚ
  old_date : Option Int
  old_epss : Option ℚ
  old_percentile : Option ℚ
  epss_change : Option ℚ
  epss_change_pct : Option ℚ
  percentile_change : Option ℚ
  percentile_change_pct : Option ℚ
deriving DecidableEq, Repr

/-- Model of `util.rejig_dataframe_precision` with `n = 5` on a single float
value: round to five decimal places (util.py:187-195, constants.py:47). -/
def round5 (q : ℚ) : ℚ := (round (q * 100000) : ℤ) / 100000

/-- A row of a snapshot file on disk.  Snapshot files carry no `date` column:
`epss.download_scores_by_date` (epss.py:558-560) discards the result of
`with_columns(date=date)`, so the date is re-attached on read from the
file name (epss.py:319-327). -/
structure SnapEntry where
  cve : String
  epss : ℚ
  percentile : ℚ
deriving DecidableEq, Repr

/-- The `raw-scores-by-date` directory: date → snapshot file contents.
Claims about the diff/changelog engine assume the needed snapshots are
cached, so the store is total. -/
def SnapStore := Int → List SnapEntry

/-- The `changelogs-by-date` directory: date → changelog file contents, or
`none` when no file exists for that date. -/
def Clog := Int → Option (List ChangeRow)

/-- Model of `epss.Query` (epss.py:19-25). -/
structure Query where
  cve_ids : Option (List String) := none
  min_score : Option ℚ := none
  max_score : Option ℚ := none
  min_percentile : Option ℚ := none
  max_percentile : Option ℚ := none
deriving DecidableEq, Repr

/-- Python truthiness of an optional float: `None` and `0.0` are falsy.
Each bound in `epss.filter_dataframe` is guarded by `if bound:`. -/
def qTruthy : Option ℚ → Bool
  | none => false
  | some v => v != 0

/-- Python truthiness of an optional iterable of ids: `None` and the empty
list are falsy. -/
def idsTruthy : Option (List String) → Bool
  | none => false
  | some l => !l.isEmpty

/-- Python truthiness of an optional date (a `datetime.date` is always
truthy). -/
def dTruthy : Option Int → Bool
  | none => false
  | some _ => true

/-- Model of `epss.filter_dataframe` (epss.py:390-435): conjunction of the
guarded predicates.  The source appends the two percentile predicates
twice (epss.py:420-430); the duplication is kept (an idempotent `AND`). -/
def filter_dataframe (df : List ScoreRow)
    (cve_ids : Option (List String))
    (min_score max_score min_percentile max_percentile : Option ℚ)
    (min_date max_date : Option Int) : List ScoreRow :=
  df.filter (fun r =>
    (!idsTruthy cve_ids || (cve_ids.getD []).contains r.cve) &&
    (!dTruthy min_date || decide (min_date.getD 0 ≤ r.date)) &&
    (!dTruthy max_date || decide (r.date ≤ max_date.getD 0)) &&
    (!qTruthy min_score || decide (min_score.getD 0 ≤ r.epss)) &&
    (!qTruthy max_score || decide (r.epss ≤ max_score.getD 0)) &&
    (!qTruthy min_percentile || decide (min_percentile.getD 0 ≤ r.percentile)) &&
    (!qTruthy max_percentile || decide (r.percentile ≤ max_percentile.getD 0)) &&
    (!qTruthy min_percentile || decide (min_percentile.getD 0 ≤ r.percentile)) &&
    (!qTruthy max_percentile || decide (r.percentile ≤ max_percentile.getD 0)))

/-- Model of `epss.filter_dataframe_with_query` (epss.py:354-364) for an
optional query (no date bounds are passed there). -/
def filter_dataframe_with_query (df : List ScoreRow) (query : Option Query) : List ScoreRow :=
  match query with
  | none => df
  | some q => filter_dataframe df q.cve_ids q.min_score q.max_score
      q.min_percentile q.max_percentile none none

/-- The same query filter applied to a changelog dataframe (reading a cached
changelog file goes through `epss.read_dataframe` →
`filter_dataframe_with_query`; the changelog's `epss`/`percentile`
columns hold the new values). -/
def filter_changelog_with_query (df : List ChangeRow) (query : Option Query) : List ChangeRow :=
  match query with
  | none => df
  | some q => df.filter (fun r =>
      (!idsTruthy q.cve_ids || (q.cve_ids.getD []).contains r.cve) &&
      (!qTruthy q.min_score || decide (q.min_score.getD 0 ≤ r.epss)) &&
      (!qTruthy q.max_score || decide (r.epss ≤ q.max_score.getD 0)) &&
      (!qTruthy q.min_percentile || decide (q.min_percentile.getD 0 ≤ r.percentile)) &&
      (!qTruthy q.max_percentile || decide (r.percentile ≤ q.max_percentile.getD 0)) &&
      (!qTruthy q.min_percentile || decide (q.min_percentile.getD 0 ≤ r.percentile)) &&
      (!qTruthy q.max_percentile || decide (r.percentile ≤ q.max_percentile.getD 0)))

/-- Sort key of the `df.sort(by=['date', 'cve'])` call in `get_diff`
(epss.py:620). -/
def rowLe (r s : ScoreRow) : Bool :=
  decide (r.date < s.date) || (decide (r.date = s.date) && strLe r.cve s.cve)

/-- Model of `df.sort(by=['date', 'cve'])` on a score dataframe. -/
def sortScoreRows (l : List ScoreRow) : List ScoreRow := sortB rowLe l

/-- Model of `pl.col(...).shift().over('cve')` (epss.py:623-627): pair every
row with the nearest preceding row of the same `cve` (in current row
order), if any.  `seen` holds the rows already passed, most recent
first. -/
def withOld (seen : List ScoreRow) : List ScoreRow → List (ScoreRow × Option ScoreRow)
  | [] => []
  | r :: rest => (r, seen.find? (fun s => s.cve == r.cve)) :: withOld (r :: seen) rest

/-- The `with_columns` stages of `get_diff` (epss.py:623-635): old columns
from the shift, then changes, then percentage changes.  `none` in a
percentage column models the non-finite float of a division by zero. -/
def rawChange (r : ScoreRow) (o : Option ScoreRow) : ChangeRow :=
  { cve := r.cve
    date := r.date
    epss := r.epss
    percentile := r.percentile
    old_date := o.map (fun s => s.date)
    old_epss := o.map (fun s => s.epss)
    old_percentile := o.map (fun s => s.percentile)
    epss_change := o.map (fun s => r.epss - s.epss)
    epss_change_pct := o.bind (fun s =>
      if s.epss = 0 then none else some ((r.epss - s.epss) / s.epss * 100))
    percentile_change := o.map (fun s => r.percentile - s.percentile)
    percentile_change_pct := o.bind (fun s =>
      if s.percentile = 0 then none else some ((r.percentile - s.percentile) / s.percentile * 100)) }

/-- Model of `util.rejig_dataframe_precision(df, n=5)` (epss.py:636): round
every float column of the changelog frame to five decimals. -/
def rejigChangeRow (r : ChangeRow) : ChangeRow :=
  { r with
    epss := round5 r.epss
    percentile := round5 r.percentile
    old_epss := r.old_epss.map round5
    old_percentile := r.old_percentile.map round5
    epss_change := r.epss_change.map round5
    epss_change_pct := r.epss_change_pct.map round5
    percentile_change := r.percentile_change.map round5
    percentile_change_pct := r.percentile_change_pct.map round5 }

/-- The row filter of `get_diff` (epss.py:639):
`old_epss.is_not_null() & (epss_change != 0)` — a null `epss_change`
compares as null, which does not pass the filter. -/
def keepChange (r : ChangeRow) : Bool :=
  r.old_epss.isSome &&
    (match r.epss_change with
     | none => false
     | some v => v != 0)

/-- Model of `epss.get_diff` (epss.py:608-657): concatenate the two frames,
sort by `(date, cve)`, shift the value columns over `cve`, add change
columns, round to five decimals, and keep only rows with a non-null old
value and a non-zero (rounded) change.  The final `select` is the
identity on the modelled columns. -/
def get_diff (a b : List ScoreRow) : List ChangeRow :=
  let df := sortScoreRows (a ++ b)
  let rows := (withOld [] df).map (fun p => rejigChangeRow (rawChange p.1 p.2))
  rows.filter keepChange

/-- Model of `epss.Client.get_score_dataframe` (epss.py:158-169) for a
cached snapshot: read the file at the date-keyed path
(`epss.read_dataframe`, epss.py:319-331), attach the date from the file
name (snapshot files carry no date column), and apply the query filter.
The cache-miss branch of the source is broken (it calls
`download_scores_by_date` without its required `path` argument); claims
are verified under cached snapshots. -/
def get_score_dataframe (store : SnapStore) (query : Option Query) (date : Int) :
    List ScoreRow :=
  filter_dataframe_with_query
    ((store date).map (fun e => ⟨e.cve, date, e.epss, e.percentile⟩)) query

/-- Model of `epss.Client.get_score_diff_dataframe` (epss.py:206-224): if a
changelog file for `second_date` exists it is read (and query-filtered) —
neither snapshot is touched; otherwise both (query-filtered) snapshots
are read, diffed, and the result is persisted under `second_date`.
Returns the dataframe together with the resulting changelog store. -/
def get_score_diff_dataframe (store : SnapStore) (clog : Clog)
    (first_date second_date : Int) (query : Option Query) :
    List ChangeRow × Clog :=
  match clog second_date with
  | some rows => (filter_changelog_with_query rows query, clog)
  | none =>
    let a := get_score_dataframe store query first_date
    let b := get_score_dataframe store query second_date
    let df := get_diff a b
    (df, fun k => if k = second_date then some df else clog k)

/-- The loop of `epss.Client.iter_score_diff_dataframes` (epss.py:226-251):
one diff per adjacent date pair, threading the changelog store.  The
source dispatches the pairs on a thread pool and yields in completion
order; the model processes them in submission order (every claim under
verification either re-sorts the concatenation or reads/writes distinct
changelog keys, so completion order is immaterial). -/
def iter_score_diff_go (store : SnapStore) (query : Option Query) :
    List (Int × Int) → Clog → List (List ChangeRow) × Clog
  | [], clog => ([], clog)
  | (a, b) :: rest, clog =>
    let step := get_score_diff_dataframe store clog a b query
    let next := iter_score_diff_go store query rest step.2
    (step.1 :: next.1, next.2)

/-- Model of `epss.Client.iter_score_diff_dataframes` (epss.py:226-251). -/
def iter_score_diff_dataframes (store : SnapStore) (clog : Clog)
    (query : Option Query) (min_date max_date : Int) :
    List (List ChangeRow) × Clog :=
  iter_score_diff_go store query (iter_pairwise (iter_dates_in_range min_date max_date)) clog

/-- Sort key of `df.sort(by=DEFAULT_SORTING_KEY)`, i.e. `('date', 'cve')`
(constants.py:42-44), on a changelog dataframe. -/
def changeLe (r s : ChangeRow) : Bool :=
  decide (r.date < s.date) || (decide (r.date = s.date) && strLe r.cve s.cve)

/-- Model of `df.sort(by=('date', 'cve'))` on a changelog dataframe. -/
def sortChangeRows (l : List ChangeRow) : List ChangeRow := sortB changeLe l

/-- Model of `epss.Client.get_historical_diff_dataframe` (epss.py:178-204):
concatenate the per-pair diffs over every adjacent date pair in
`[min_date, max_date]` and, when `preserve_order` is set, sort by
`('date', 'cve')`. -/
def get_historical_diff_dataframe (store : SnapStore) (clog : Clog)
    (query : Option Query) (min_date max_date : Int) (preserve_order : Bool) :
    List ChangeRow × Clog :=
  let dfs := iter_score_diff_dataframes store clog query min_date max_date
  let df := dfs.1.flatten
  (if preserve_order then sortChangeRows df else df, dfs.2)

/-- One row of the aggregate produced by `df.groupby('cve').agg(...)` plus
the two `with_columns` stages in `epss.Client.get_score_range_dataframe`
(epss.py:271-284). -/
structure RangeRow where
  cve : String
  min_epss : ℚ
  max_epss : ℚ
  min_percentile : ℚ
  max_percentile : ℚ
  epss_change : ℚ
  percentile_change : ℚ
  epss_change_pct : Option ℚ
  percentile_change_pct : Option ℚ
deriving DecidableEq, Repr

/-- The columns of the aggregated frame in `get_score_range_dataframe` —
note there is no `date` column. -/
def rangeColumns : List String :=
  ["cve", "min_epss", "max_epss", "min_percentile", "max_percentile",
   "epss_change", "percentile_change", "epss_change_pct", "percentile_change_pct"]

/-- Minimum of a non-empty ℚ column (`pl.col(...).min()`); `0` on an empty
column (never hit: groups are non-empty by construction). -/
def qMin : List ℚ → ℚ
  | [] => 0
  | x :: xs => xs.foldl min x

/-- Maximum of a non-empty ℚ column (`pl.col(...).max()`). -/
def qMax : List ℚ → ℚ
  | [] => 0
  | x :: xs => xs.foldl max x

/-- Distinct `cve` values in first-appearance order (`df['cve'].unique()`;
polars group order is not guaranteed — first appearance is one admissible
order, and the claims touching this function use a single-cve query). -/
def uniqueCves (rows : List ChangeRow) : List String :=
  rows.foldl (fun acc r => if acc.contains r.cve then acc else acc ++ [r.cve]) []

/-- Model of `groupby('cve').agg(min/max of epss and percentile)` followed by
the two `with_columns` stages and the `rejig` to 5 decimals
(epss.py:271-285).  The aggregation reads only the `epss`/`percentile`
columns (the *new* values), not the `old_*` columns. -/
def score_range_rows (rows : List ChangeRow) : List RangeRow :=
  (uniqueCves rows).map (fun c =>
    let grp := rows.filter (fun r => r.cve == c)
    let mn := qMin (grp.map (fun r => r.epss))
    let mx := qMax (grp.map (fun r => r.epss))
    let pn := qMin (grp.map (fun r => r.percentile))
    let px := qMax (grp.map (fun r => r.percentile))
    { cve := c
      min_epss := round5 mn
      max_epss := round5 mx
      min_percentile := round5 pn
      max_percentile := round5 px
      epss_change := round5 (mx - mn)
      percentile_change := round5 (px - pn)
      epss_change_pct := if mn = 0 then none else some (round5 ((mx - mn) / mn * 100))
      percentile_change_pct := if pn = 0 then none else some (round5 ((px - pn) / pn * 100)) })

/-- A pairwise comparison for one sort key on the aggregated frame (only the
columns that exist can be compared; the caller checks existence first). -/
def rangeKeyLe (key : String) (r s : RangeRow) : Bool :=
  if key = "cve" then strLe r.cve s.cve
  else if key = "min_epss" then decide (r.min_epss ≤ s.min_epss)
  else if key = "max_epss" then decide (r.max_epss ≤ s.max_epss)
  else if key = "min_percentile" then decide (r.min_percentile ≤ s.min_percentile)
  else if key = "max_percentile" then decide (r.max_percentile ≤ s.max_percentile)
  else if key = "epss_change" then decide (r.epss_change ≤ s.epss_change)
  else if key = "percentile_change" then decide (r.percentile_change ≤ s.percentile_change)
  else true

/-- Model of `df.sort(by=keys)` on the aggregated frame: polars raises
`ColumnNotFoundError` when a requested sort column does not exist;
otherwise sort lexicographically by the keys. -/
def sortRangeRows (keys : List String) (rows : List RangeRow) :
    Except String (List RangeRow) :=
  match keys.find? (fun k => !rangeColumns.contains k) with
  | some k => Except.error ("ColumnNotFoundError: " ++ k)
  | none => Except.ok (sortB (fun r s => keys.all (fun k => rangeKeyLe k r s)) rows)

/-- Model of `epss.Client.get_score_range_dataframe` (epss.py:258-288):
build the historical changelog (unordered), aggregate per cve, and — when
`preserve_order` is set (the default) — sort by `DEFAULT_SORTING_KEY =
('date', 'cve')`, columns the aggregate does not have. -/
def get_score_range_dataframe (store : SnapStore) (clog : Clog)
    (query : Option Query) (min_date max_date : Int) (preserve_order : Bool) :
    Except String (List RangeRow) :=
  let df := (get_historical_diff_dataframe store clog query min_date max_date false).1
  let agg := score_range_rows df
  if preserve_order then sortRangeRows ["date", "cve"] agg else Except.ok agg

/-- Model of `epss.Client.get_score_range_tuple_by_cve_id`
(epss.py:290-302). -/
def get_score_range_tuple_by_cve_id (store : SnapStore) (clog : Clog)
    (cve_id : String) (min_date max_date : Int) : Except String (ℚ × ℚ) :=
  match get_score_range_dataframe store clog
      (some { cve_ids := some [cve_id] }) min_date max_date true with
  | Except.error e => Except.error e
  | Except.ok df =>
    match df with
    | [] => Except.error ("No EPSS scores found for " ++ cve_id)
    | o :: _ => Except.ok (o.min_epss, o.max_epss)

/-- Model of `client.BaseClient.get_date_range` (client.py:100-117): default
missing bounds to the allowed range and clamp out-of-range bounds; no
ordering check of any kind, the (possibly inverted) pair is returned as
is. -/
def base_get_date_range (min_allowed max_allowed : Int)
    (min_date max_date : Option Int) : Int × Int :=
  let mn := min_date.getD min_allowed
  let mx := max_date.getD max_allowed
  let mn := if mn < min_allowed then min_allowed else mn
  let mx := if mx > max_allowed then max_allowed else mx
  (mn, mx)

/-- Model of `cli.get_date_range` (cli.py:220-240): raises `ValueError`
exactly when the two parsed bounds are equal (also when both are
omitted — `None == None`); otherwise derives the pair from `date` /
`days_ago` when given, else returns the supplied bounds (defaulted to the
client's range) with no ordering check. -/
def cli_get_date_range (client_min client_max : Int)
    (min_date max_date date : Option Int) (days_ago : Option Int) :
    Except String (Int × Int) :=
  if min_date = max_date then
    Except.error "Minimum and maximum dates cannot be the same"
  else
    match date with
    | some d => Except.ok (d - 1, d)
    | none =>
      match days_ago with
      | some n => Except.ok (client_max - max n 1, client_max)
      | none => Except.ok (min_date.getD client_min, max_date.getD client_max)

/-- Model of `client.Query` (client.py:21-27). -/
structure ClientQuery where
  cve_ids : Option (List String) := none
  min_epss : Option ℚ := none
  max_epss : Option ℚ := none
  min_percentile : Option ℚ := none
  max_percentile : Option ℚ := none
deriving DecidableEq, Repr

/-- Model of `pl.col('cve').str.contains(pattern)`: a regex *search*.  For
the pattern `'|'.join(query.cve_ids)` built from literal CVE ids this
holds exactly when some id occurs as a substring of the cell. -/
def strContainsSubstr (s pat : String) : Bool := decide (pat.data <:+: s.data)

/-- Model of `client.PolarsClient.filter_scores` (client.py:261-281): an
unconditional date-range filter against the client's allowed range, a
*substring/regex* test for the cve ids (`str.contains('|'.join(ids))`),
and truthiness-guarded inclusive numeric bounds. -/
def filter_scores (min_allowed max_allowed : Int)
    (df : List ScoreRow) (query : ClientQuery) : List ScoreRow :=
  df.filter (fun r =>
    decide (min_allowed ≤ r.date) &&
    decide (r.date ≤ max_allowed) &&
    (!idsTruthy query.cve_ids ||
      (query.cve_ids.getD []).any (fun p => strContainsSubstr r.cve p)) &&
    (!qTruthy query.min_epss || decide (query.min_epss.getD 0 ≤ r.epss)) &&
    (!qTruthy query.max_epss || decide (r.epss ≤ query.max_epss.getD 0)) &&
    (!qTruthy query.min_percentile || decide (query.min_percentile.getD 0 ≤ r.percentile)) &&
    (!qTruthy query.max_percentile || decide (r.percentile ≤ query.max_percentile.getD 0)))

/-- Pair every element with its predecessor, starting from `prev`: the
restriction of `withOld` to one `cve` group (proof device for the
`over('cve')` semantics). -/
def consecFrom (prev : Option ScoreRow) : List ScoreRow → List (ScoreRow × Option ScoreRow)
  | [] => []
  | r :: rest => (r, prev) :: consecFrom (some r) rest

/-- Snapshot store for the C5 counterexample: the entity's score is 0.1 on
days 1-3 and 0.2 on day 4 (days 1, 2 and 4 play the roles of
d1 < d2 < d3, which are *not* consecutive). -/
def exStore5 : SnapStore := fun d =>
  if d = 4 then [⟨"CVE-A", 1/5, 3/5⟩] else [⟨"CVE-A", 1/10, 1/2⟩]

/-- An empty changelog store (no changelog files on disk). -/
def emptyClog : Clog := fun _ => none

/-- Snapshot store for the C6 scenario: entity `CVE-E1` scores 0.10/0.50 on
day 0 and 0.12/0.55 on day 1 — per the claim, the range view should
return (0.10, 0.12). -/
def c6Store : SnapStore := fun d =>
  if d = 0 then [⟨"CVE-E1", 1/10, 1/2⟩] else [⟨"CVE-E1", 3/25, 11/20⟩]

/-- A concrete changelog file for the C10 witness. -/
def c10Rows : List ChangeRow :=
  [⟨"CVE-2024-0001", 19724, 3/25, 11/20, some 19723, some (1/10), some (1/2),
    some (1/50), some 20, some (1/20), some 10⟩]

/-- A changelog store holding only the file for day 19724. -/
def c10Clog : Clog := fun d => if d = 19724 then some c10Rows else none

/-! ## Theorems -/

theorem charListLe_total : ∀ x y : List Char, charListLe x y = true ∨ charListLe y x = true := by
  intro x
  induction x with
  | nil => intro y; left; rfl
  | cons a as ih =>
    intro y
    cases y with
    | nil => right; rfl
    | cons b bs =>
      by_cases hab : a = b
      · subst hab
        rcases ih bs with h | h
        · left; simpa [charListLe] using h
        · right; simpa [charListLe] using h
      · rcases Ne.lt_or_lt hab with h | h
        · left; simp [charListLe, hab, h]
        · right; simp [charListLe, Ne.symm hab, h]

theorem charListLe_trans :
    ∀ x y z : List Char, charListLe x y = true → charListLe y z = true →
      charListLe x z = true := by
  intro x
  induction x with
  | nil => intro y z _ _; rfl
  | cons a as ih =>
    intro y z hxy hyz
    cases y with
    | nil => simp [charListLe] at hxy
    | cons b bs =>
      cases z with
      | nil => simp [charListLe] at hyz
      | cons c cs =>
        by_cases hab : a = b
        · subst hab
          simp only [charListLe, if_pos rfl] at hxy
          by_cases hbc : a = c
          · subst hbc
            simp only [charListLe, if_pos rfl] at hyz ⊢
            exact ih bs cs hxy hyz
          · simp only [charListLe, if_neg hbc] at hyz ⊢
            exact hyz
        · simp only [charListLe, if_neg hab, decide_eq_true_eq] at hxy
          by_cases hbc : b = c
          · subst hbc
            simp [charListLe, hab, hxy]
          · simp only [charListLe, if_neg hbc, decide_eq_true_eq] at hyz
            have hac : a < c := lt_trans hxy hyz
            simp [charListLe, ne_of_lt hac, hac]

theorem charListLe_antisymm :
    ∀ x y : List Char, charListLe x y = true → charListLe y x = true → x = y := by
  intro x
  induction x with
  | nil =>
    intro y _ hyx
    cases y with
    | nil => rfl
    | cons b bs => simp [charListLe] at hyx
  | cons a as ih =>
    intro y hxy hyx
    cases y with
    | nil => simp [charListLe] at hxy
    | cons b bs =>
      by_cases hab : a = b
      · subst hab
        simp only [charListLe, if_pos rfl] at hxy hyx
        rw [ih bs hxy hyx]
      · simp only [charListLe, if_neg hab, decide_eq_true_eq] at hxy
        simp only [charListLe, if_neg (Ne.symm hab), decide_eq_true_eq] at hyx
        exact absurd hyx (lt_asymm hxy)

theorem insertB_perm (le : α → α → Bool) (a : α) :
    ∀ l : List α, (insertB le a l).Perm (a :: l) := by
  intro l
  induction l with
  | nil => exact List.Perm.refl _
  | cons b t ih =>
    by_cases h : le a b = true
    · simp [insertB, h]
    · simp only [insertB, h, if_false]
      exact (ih.cons b).trans (List.Perm.swap a b t)

theorem sortB_perm (le : α → α → Bool) : ∀ l : List α, (sortB le l).Perm l := by
  intro l
  induction l with
  | nil => exact List.Perm.refl _
  | cons a t ih => exact (insertB_perm le a (sortB le t)).trans (ih.cons a)

theorem mem_insertB {le : α → α → Bool} {a x : α} {l : List α} :
    x ∈ insertB le a l ↔ x = a ∨ x ∈ l := by
  rw [(insertB_perm le a l).mem_iff]
  simp

theorem insertB_sorted {le : α → α → Bool}
    (htrans : ∀ x y z, le x y = true → le y z = true → le x z = true)
    (htotal : ∀ x y, le x y = true ∨ le y x = true)
    (a : α) :
    ∀ l : List α, l.Pairwise (fun x y => le x y = true) →
      (insertB le a l).Pairwise (fun x y => le x y = true) := by
  intro l
  induction l with
  | nil => intro _; simp [insertB]
  | cons b t ih =>
    intro h
    rcases List.pairwise_cons.mp h with ⟨hb, ht⟩
    by_cases hab : le a b = true
    · simp only [insertB, hab, if_true]
      refine List.pairwise_cons.mpr ⟨?_, h⟩
      intro x hx
      rcases List.mem_cons.mp hx with rfl | hx
      · exact hab
      · exact htrans a b x hab (hb x hx)
    · have hba : le b a = true := (htotal a b).resolve_left hab
      simp only [insertB, hab, if_false]
      refine List.pairwise_cons.mpr ⟨?_, ih ht⟩
      intro x hx
      rcases mem_insertB.mp hx with rfl | hx
      · exact hba
      · exact hb x hx

theorem sortB_sorted {le : α → α → Bool}
    (htrans : ∀ x y z, le x y = true → le y z = true → le x z = true)
    (htotal : ∀ x y, le x y = true ∨ le y x = true) :
    ∀ l : List α, (sortB le l).Pairwise (fun x y => le x y = true) := by
  intro l
  induction l with
  | nil => simp [sortB]
  | cons a t ih => exact insertB_sorted htrans htotal a (sortB le t) ih

/-- Two sorted lists that are permutations of each other are equal, provided
the order relation is antisymmetric on their elements. -/
theorem sorted_perm_eq {R : α → α → Prop} :
    ∀ l₁ l₂ : List α, l₁.Perm l₂ → l₁.Pairwise R → l₂.Pairwise R →
      (∀ x ∈ l₁, ∀ y ∈ l₁, R x y → R y x → x = y) → l₁ = l₂ := by
  intro l₁
  induction l₁ with
  | nil => intro l₂ hp _ _ _; simpa using hp.nil_eq.symm
  | cons x t₁ ih =>
    intro l₂ hp hs₁ hs₂ hanti
    cases l₂ with
    | nil => exact absurd hp.symm (by simp)
    | cons y t₂ =>
      rcases List.pairwise_cons.mp hs₁ with ⟨hx, ht₁⟩
      rcases List.pairwise_cons.mp hs₂ with ⟨hy, ht₂⟩
      by_cases hxy : x = y
      · subst hxy
        have ht : t₁.Perm t₂ := hp.cons_inv
        have := ih t₂ ht ht₁ ht₂ (fun u hu v hv => hanti u (by simp [hu]) v (by simp [hv]))
        rw [this]
      · have hxmem : x ∈ y :: t₂ := hp.mem_iff.mp (by simp)
        have hymem : y ∈ x :: t₁ := hp.mem_iff.mpr (by simp)
        have hxt₂ : x ∈ t₂ := by
          rcases List.mem_cons.mp hxmem with h | h
          · exact absurd h hxy
          · exact h
        have hyt₁ : y ∈ t₁ := by
          rcases List.mem_cons.mp hymem with h | h
          · exact absurd h.symm hxy
          · exact h
        have h₁ : R x y := hx y hyt₁
        have h₂ : R y x := hy x hxt₂
        exact absurd (hanti x (by simp) y (by simp [hyt₁]) h₁ h₂) hxy

/-- A permutation of a two-element list is one of its two arrangements. -/
theorem perm_pair {l : List α} {x y : α} (h : l.Perm [x, y]) :
    l = [x, y] ∨ l = [y, x] := by
  have hlen : l.length = 2 := by simpa using h.length_eq
  rcases List.length_eq_two.mp hlen with ⟨u, v, rfl⟩
  have hu : u ∈ [x, y] := h.mem_iff.mp (by simp)
  rcases List.mem_cons.mp hu with rfl | hu
  · left
    have : [v].Perm [y] := h.cons_inv
    rw [List.perm_singleton.mp this]
  · have hu : u = y := by simpa using hu
    subst hu
    right
    have hswap : ([u, x] : List α).Perm [x, u] := List.Perm.swap x u []
    have : [v].Perm [x] := (h.trans hswap.symm).cons_inv
    rw [List.perm_singleton.mp this]

theorem strLe_total (s t : String) : strLe s t = true ∨ strLe t s = true :=
  charListLe_total s.data t.data

theorem strLe_trans {s t u : String} (h₁ : strLe s t = true) (h₂ : strLe t u = true) :
    strLe s u = true :=
  charListLe_trans s.data t.data u.data h₁ h₂

theorem strLe_antisymm {s t : String} (h₁ : strLe s t = true) (h₂ : strLe t s = true) :
    s = t :=
  String.ext (charListLe_antisymm s.data t.data h₁ h₂)

theorem rowLe_iff {r s : ScoreRow} :
    rowLe r s = true ↔ r.date < s.date ∨ (r.date = s.date ∧ strLe r.cve s.cve = true) := by
  simp [rowLe, Bool.or_eq_true, Bool.and_eq_true, decide_eq_true_eq]

theorem rowLe_total (r s : ScoreRow) : rowLe r s = true ∨ rowLe s r = true := by
  rcases lt_trichotomy r.date s.date with h | h | h
  · left; exact rowLe_iff.mpr (Or.inl h)
  · rcases strLe_total r.cve s.cve with hs | hs
    · left; exact rowLe_iff.mpr (Or.inr ⟨h, hs⟩)
    · right; exact rowLe_iff.mpr (Or.inr ⟨h.symm, hs⟩)
  · right; exact rowLe_iff.mpr (Or.inl h)

theorem rowLe_trans {r s t : ScoreRow}
    (h₁ : rowLe r s = true) (h₂ : rowLe s t = true) : rowLe r t = true := by
  rcases rowLe_iff.mp h₁ with h₁ | ⟨h₁, hs₁⟩ <;> rcases rowLe_iff.mp h₂ with h₂ | ⟨h₂, hs₂⟩
  · exact rowLe_iff.mpr (Or.inl (lt_trans h₁ h₂))
  · exact rowLe_iff.mpr (Or.inl (h₂ ▸ h₁))
  · exact rowLe_iff.mpr (Or.inl (h₁ ▸ h₂))
  · exact rowLe_iff.mpr (Or.inr ⟨h₁.trans h₂, strLe_trans hs₁ hs₂⟩)

theorem rowLe_antisymm_keys {r s : ScoreRow}
    (h₁ : rowLe r s = true) (h₂ : rowLe s r = true) :
    r.date = s.date ∧ r.cve = s.cve := by
  rcases rowLe_iff.mp h₁ with h₁ | ⟨h₁, hs₁⟩ <;> rcases rowLe_iff.mp h₂ with h₂ | ⟨h₂, hs₂⟩
  · exact absurd h₂ (lt_asymm h₁)
  · exact absurd h₂.symm (ne_of_lt h₁)
  · exact absurd h₁.symm (ne_of_lt h₂)
  · exact ⟨h₁, strLe_antisymm hs₁ hs₂⟩

theorem withOld_map_fst :
    ∀ (l seen : List ScoreRow), (withOld seen l).map Prod.fst = l := by
  intro l
  induction l with
  | nil => intro seen; rfl
  | cons r rest ih => intro seen; simp [withOld, ih]

theorem withOld_snd_mem :
    ∀ (l seen : List ScoreRow) (r o : ScoreRow),
      (r, some o) ∈ withOld seen l → o.cve = r.cve ∧ (o ∈ seen ∨ o ∈ l) := by
  intro l
  induction l with
  | nil => intro seen r o h; simp [withOld] at h
  | cons x rest ih =>
    intro seen r o h
    rcases List.mem_cons.mp h with h | h
    · have hr : r = x := congrArg Prod.fst h
      have ho : seen.find? (fun s => s.cve == x.cve) = some o := by
        have := congrArg Prod.snd h
        simpa using this.symm
      refine ⟨?_, Or.inl (List.mem_of_find?_eq_some ho)⟩
      have := List.find?_some ho
      rw [hr]
      exact beq_iff_eq.mp this
    · rcases ih (x :: seen) r o h with ⟨hcve, hmem⟩
      refine ⟨hcve, ?_⟩
      rcases hmem with hmem | hmem
      · rcases List.mem_cons.mp hmem with rfl | hmem
        · exact Or.inr (List.mem_cons_self _ _)
        · exact Or.inl hmem
      · exact Or.inr (List.mem_cons_of_mem _ hmem)

theorem withOld_filter_group (c : String) :
    ∀ (l seen : List ScoreRow),
      (withOld seen l).filter (fun p => p.1.cve == c)
        = consecFrom (seen.find? (fun s => s.cve == c)) (l.filter (fun r => r.cve == c)) := by
  intro l
  induction l with
  | nil => intro seen; rfl
  | cons r rest ih =>
    intro seen
    by_cases hc : r.cve = c
    · have hbeq : (r.cve == c) = true := beq_iff_eq.mpr hc
      have hpred : (fun s : ScoreRow => s.cve == r.cve) = (fun s : ScoreRow => s.cve == c) := by
        funext s; rw [hc]
      have h1 : (withOld seen (r :: rest)).filter (fun p => p.1.cve == c)
          = (r, seen.find? (fun s : ScoreRow => s.cve == c))
              :: (withOld (r :: seen) rest).filter (fun p => p.1.cve == c) := by
        simp only [withOld, hpred, List.filter_cons]
        simp [hbeq]
      have h2 : (r :: rest).filter (fun r => r.cve == c)
          = r :: rest.filter (fun r => r.cve == c) := by
        simp [List.filter_cons, hbeq]
      have h3 : List.find? (fun s : ScoreRow => s.cve == c) (r :: seen) = some r := by
        simp [List.find?_cons, hbeq]
      rw [h1, ih, h3, h2]
      rfl
    · have hbeq : (r.cve == c) = false := beq_eq_false_iff_ne.mpr hc
      have h1 : (withOld seen (r :: rest)).filter (fun p => p.1.cve == c)
          = (withOld (r :: seen) rest).filter (fun p => p.1.cve == c) := by
        simp only [withOld, List.filter_cons]
        simp [hbeq]
      have h2 : (r :: rest).filter (fun r => r.cve == c) = rest.filter (fun r => r.cve == c) := by
        simp [List.filter_cons, hbeq]
      have h3 : List.find? (fun s : ScoreRow => s.cve == c) (r :: seen)
          = seen.find? (fun s : ScoreRow => s.cve == c) := by
        simp [List.find?_cons, hbeq]
      rw [h1, ih, h3, h2]

theorem nodup_cve_inj :
    ∀ (S : List ScoreRow), (S.map ScoreRow.cve).Nodup →
      ∀ x ∈ S, ∀ y ∈ S, x.cve = y.cve → x = y := by
  intro S
  induction S with
  | nil => intro _ x hx; simp at hx
  | cons z t ih =>
    intro h x hx y hy hcve
    rw [List.map_cons, List.nodup_cons] at h
    rcases h with ⟨hz, ht⟩
    rcases List.mem_cons.mp hx with hxz | hxt
    · rcases List.mem_cons.mp hy with hyz | hyt
      · rw [hxz, hyz]
      · refine absurd ?_ hz
        have h1 : z.cve = y.cve := by rw [← hxz, hcve]
        exact h1.symm ▸ List.mem_map_of_mem ScoreRow.cve hyt
    · rcases List.mem_cons.mp hy with hyz | hyt
      · refine absurd ?_ hz
        have h1 : x.cve = z.cve := by rw [hcve, hyz]
        exact h1 ▸ List.mem_map_of_mem ScoreRow.cve hxt
      · exact ih ht x hxt y hyt hcve

theorem nodup_filter_nil {t : List ScoreRow} {c : String}
    (h : c ∉ t.map ScoreRow.cve) :
    t.filter (fun r => r.cve == c) = [] := by
  rw [List.filter_eq_nil_iff]
  intro y hy hc
  exact h (beq_iff_eq.mp hc ▸ List.mem_map_of_mem ScoreRow.cve hy)

theorem nodup_filter_single :
    ∀ (a : List ScoreRow), (a.map ScoreRow.cve).Nodup →
      ∀ {ra : ScoreRow}, ra ∈ a → a.filter (fun r => r.cve == ra.cve) = [ra] := by
  intro a
  induction a with
  | nil => intro _ ra hra; simp at hra
  | cons x t ih =>
    intro na ra hra
    rw [List.map_cons, List.nodup_cons] at na
    rcases na with ⟨hx, ht⟩
    rcases List.mem_cons.mp hra with rfl | hra
    · rw [List.filter_cons]
      simp only [beq_self_eq_true, if_true]
      rw [nodup_filter_nil hx]
    · have hxra : (x.cve == ra.cve) = false := by
        refine beq_eq_false_iff_ne.mpr ?_
        intro hc
        exact hx (hc ▸ List.mem_map_of_mem ScoreRow.cve hra)
      rw [List.filter_cons]
      simp only [hxra, if_false, Bool.false_eq_true]
      exact ih ht hra

theorem nodup_filter_length_le :
    ∀ (a : List ScoreRow), (a.map ScoreRow.cve).Nodup →
      ∀ c : String, (a.filter (fun r => r.cve == c)).length ≤ 1 := by
  intro a
  induction a with
  | nil => intro _ c; simp
  | cons x t ih =>
    intro na c
    rw [List.map_cons, List.nodup_cons] at na
    rcases na with ⟨hx, ht⟩
    rw [List.filter_cons]
    by_cases hc : (x.cve == c) = true
    · simp only [hc, if_true]
      have h0 : t.filter (fun r => r.cve == c) = [] :=
        nodup_filter_nil (by rwa [beq_iff_eq.mp hc] at hx)
      simp [h0]
    · simp only [hc, if_false, Bool.false_eq_true]
      exact ih ht c

theorem sortScoreRows_perm (l : List ScoreRow) : (sortScoreRows l).Perm l :=
  sortB_perm rowLe l

theorem sortScoreRows_sorted (l : List ScoreRow) :
    (sortScoreRows l).Pairwise (fun r s => rowLe r s = true) :=
  sortB_sorted (fun x y z h1 h2 => @rowLe_trans x y z h1 h2) rowLe_total l

theorem get_diff_def (a b : List ScoreRow) :
    get_diff a b
      = ((withOld [] (sortScoreRows (a ++ b))).map
          (fun p => rejigChangeRow (rawChange p.1 p.2))).filter keepChange := rfl

theorem round5_zero : round5 0 = 0 := by simp [round5]

/-- In the sorted union of two single-dated snapshots with unique cve keys,
the rows of a cve present in both consist of exactly the `a`-row followed
by the `b`-row. -/
theorem sorted_group_pair {a b : List ScoreRow} {da db : Int}
    (ha : ∀ r ∈ a, r.date = da) (hb : ∀ r ∈ b, r.date = db) (hd : da < db)
    (na : (a.map ScoreRow.cve).Nodup) (nb : (b.map ScoreRow.cve).Nodup)
    {ra rb : ScoreRow} (hra : ra ∈ a) (hrb : rb ∈ b) (hc : rb.cve = ra.cve) :
    (sortScoreRows (a ++ b)).filter (fun r => r.cve == ra.cve) = [ra, rb] := by
  have hfa : a.filter (fun r => r.cve == ra.cve) = [ra] := nodup_filter_single a na hra
  have hfb : b.filter (fun r => r.cve == ra.cve) = [rb] := by
    have h0 := nodup_filter_single b nb hrb
    rwa [hc] at h0
  have hperm : ((sortScoreRows (a ++ b)).filter (fun r => r.cve == ra.cve)).Perm [ra, rb] := by
    have h0 := (sortScoreRows_perm (a ++ b)).filter (fun r => r.cve == ra.cve)
    rwa [List.filter_append, hfa, hfb] at h0
  have hsorted := (sortScoreRows_sorted (a ++ b)).filter (fun r => r.cve == ra.cve)
  rcases perm_pair hperm with h | h
  · exact h
  · exfalso
    rw [h] at hsorted
    have h1 : rowLe rb ra = true := by
      rcases List.pairwise_cons.mp hsorted with ⟨hh, _⟩
      exact hh ra (by simp)
    rcases rowLe_iff.mp h1 with hlt | ⟨heq, _⟩
    · rw [ha ra hra, hb rb hrb] at hlt
      exact absurd hlt (lt_asymm hd)
    · rw [ha ra hra, hb rb hrb] at heq
      exact absurd heq (ne_of_gt hd)

/-- Claim C7 — `diff(S, S)` is empty for any snapshot `S` (a snapshot has at
most one row per cve). -/
theorem get_diff_self_empty (S : List ScoreRow)
    (h : (S.map ScoreRow.cve).Nodup) : get_diff S S = [] := by
  rw [get_diff_def, List.filter_eq_nil_iff]
  intro rec hrec
  rcases List.mem_map.mp hrec with ⟨p, hp, rfl⟩
  rcases p with ⟨r, o⟩
  cases o with
  | none => simp [keepChange, rejigChangeRow, rawChange]
  | some o =>
    rcases withOld_snd_mem (sortScoreRows (S ++ S)) [] r o hp with ⟨hcve, ho⟩
    have ho' : o ∈ sortScoreRows (S ++ S) := by
      rcases ho with h0 | h0
      · simp at h0
      · exact h0
    have hr : r ∈ sortScoreRows (S ++ S) := by
      have h0 := withOld_map_fst (sortScoreRows (S ++ S)) []
      rw [← h0]
      exact List.mem_map_of_mem Prod.fst hp
    have hoS : o ∈ S := by
      rcases List.mem_append.mp ((sortScoreRows_perm (S ++ S)).mem_iff.mp ho') with h0 | h0 <;>
        exact h0
    have hrS : r ∈ S := by
      rcases List.mem_append.mp ((sortScoreRows_perm (S ++ S)).mem_iff.mp hr) with h0 | h0 <;>
        exact h0
    have heq : o = r := nodup_cve_inj S h o hoS r hrS hcve
    subst heq
    simp [keepChange, rejigChangeRow, rawChange, round5]

/-- Witness for C7 at a concrete snapshot. -/
theorem get_diff_self_empty_witness :
    get_diff [⟨"CVE-2024-0001", 19723, 1/10, 1/2⟩] [⟨"CVE-2024-0001", 19723, 1/10, 1/2⟩] = [] :=
  get_diff_self_empty [⟨"CVE-2024-0001", 19723, 1/10, 1/2⟩] (by decide)

/-- The sort key of `get_diff` orders by date first, so swapping the two
snapshots does not change the sorted union (two single-dated snapshots
with distinct dates and unique keys have no ties between distinct
rows). -/
theorem sortScoreRows_append_comm {a b : List ScoreRow} {da db : Int}
    (ha : ∀ r ∈ a, r.date = da) (hb : ∀ r ∈ b, r.date = db) (hdd : da ≠ db)
    (na : (a.map ScoreRow.cve).Nodup) (nb : (b.map ScoreRow.cve).Nodup) :
    sortScoreRows (a ++ b) = sortScoreRows (b ++ a) := by
  apply sorted_perm_eq (R := fun x y => rowLe x y = true)
  · exact (sortScoreRows_perm _).trans (List.perm_append_comm.trans (sortScoreRows_perm _).symm)
  · exact sortScoreRows_sorted _
  · exact sortScoreRows_sorted _
  · intro x hx y hy h1 h2
    have hxab : x ∈ a ++ b := (sortScoreRows_perm _).mem_iff.mp hx
    have hyab : y ∈ a ++ b := (sortScoreRows_perm _).mem_iff.mp hy
    rcases rowLe_antisymm_keys h1 h2 with ⟨hdate, hcve⟩
    rcases List.mem_append.mp hxab with hxa | hxb <;> rcases List.mem_append.mp hyab with hya | hyb
    · exact nodup_cve_inj a na x hxa y hya hcve
    · exfalso; apply hdd; rw [← ha x hxa, hdate, hb y hyb]
    · exfalso; apply hdd; rw [← ha y hya, ← hdate, hb x hxb]
    · exact nodup_cve_inj b nb x hxb y hyb hcve

/-- Claim C4 (amended) — for two snapshots with distinct dates and unique
keys, `get_diff` is insensitive to argument order: `diff(B, A)` equals
`diff(A, B)` (both report the change from the value at the older date to
the value at the newer date); the deltas are *not* sign-reversed. -/
theorem get_diff_comm {a b : List ScoreRow} {da db : Int}
    (ha : ∀ r ∈ a, r.date = da) (hb : ∀ r ∈ b, r.date = db) (hdd : da ≠ db)
    (na : (a.map ScoreRow.cve).Nodup) (nb : (b.map ScoreRow.cve).Nodup) :
    get_diff a b = get_diff b a := by
  rw [get_diff_def, get_diff_def, sortScoreRows_append_comm ha hb hdd na nb]

theorem consecFrom_none_some_length {l : List ScoreRow} {r o : ScoreRow}
    (h : (r, some o) ∈ consecFrom none l) : 2 ≤ l.length := by
  match l with
  | [] => simp [consecFrom] at h
  | [x] =>
    simp [consecFrom] at h
  | x :: y :: t =>
    simp only [List.length_cons]
    omega

theorem keepChange_some (r o : ScoreRow) :
    keepChange (rejigChangeRow (rawChange r (some o)))
      = (round5 (r.epss - o.epss) != 0) := by
  simp [keepChange, rejigChangeRow, rawChange]

theorem keepChange_none (r : ScoreRow) :
    keepChange (rejigChangeRow (rawChange r none)) = false := by
  simp [keepChange, rejigChangeRow, rawChange]

/-- Claim C1 — for two single-dated snapshots with unique cve keys (older
`a`, newer `b`): `get_diff a b` emits a record for a cve present in both
snapshots exactly when the rounded score delta (new minus old, rounded to
five decimals) is non-zero; every emitted record's cve is present in both
snapshots (entities in only one snapshot are never reported); and the
output is ordered by `(date, cve)` ascending. -/
theorem get_diff_spec {a b : List ScoreRow} {da db : Int}
    (ha : ∀ r ∈ a, r.date = da) (hb : ∀ r ∈ b, r.date = db) (hd : da < db)
    (na : (a.map ScoreRow.cve).Nodup) (nb : (b.map ScoreRow.cve).Nodup) :
    (∀ ra ∈ a, ∀ rb ∈ b, rb.cve = ra.cve →
      ((∃ rec ∈ get_diff a b, rec.cve = ra.cve) ↔ round5 (rb.epss - ra.epss) ≠ 0))
    ∧ (∀ rec ∈ get_diff a b,
        (∃ ra ∈ a, ra.cve = rec.cve) ∧ (∃ rb ∈ b, rb.cve = rec.cve))
    ∧ (get_diff a b).Pairwise
        (fun r s => r.date < s.date ∨ (r.date = s.date ∧ strLe r.cve s.cve = true)) := by
  refine ⟨?_, ?_, ?_⟩
  · -- emission for a cve present in both snapshots
    intro ra hra rb hrb hc
    have hgroup : (withOld [] (sortScoreRows (a ++ b))).filter (fun p => p.1.cve == ra.cve)
        = [(ra, none), (rb, some ra)] := by
      rw [withOld_filter_group ra.cve (sortScoreRows (a ++ b)) [],
        sorted_group_pair ha hb hd na nb hra hrb hc]
      rfl
    constructor
    · rintro ⟨rec, hrec, hcve⟩
      rw [get_diff_def] at hrec
      rcases List.mem_filter.mp hrec with ⟨hmem, hkeep⟩
      rcases List.mem_map.mp hmem with ⟨p, hp, hFp⟩
      have hpcve : p.1.cve = ra.cve := by
        have h0 : (rejigChangeRow (rawChange p.1 p.2)).cve = p.1.cve := rfl
        rw [← hcve, ← hFp]
        exact h0.symm
      have hpf : p ∈ (withOld [] (sortScoreRows (a ++ b))).filter
          (fun p => p.1.cve == ra.cve) :=
        List.mem_filter.mpr ⟨hp, beq_iff_eq.mpr hpcve⟩
      rw [hgroup] at hpf
      rcases List.mem_cons.mp hpf with rfl | hpf
      · rw [← hFp, keepChange_none] at hkeep
        exact absurd hkeep (by simp)
      · have : p = (rb, some ra) := by simpa using hpf
        subst this
        rw [← hFp, keepChange_some] at hkeep
        exact bne_iff_ne.mp hkeep
    · intro hne
      have hpair : (rb, some ra) ∈ (withOld [] (sortScoreRows (a ++ b))).filter
          (fun p => p.1.cve == ra.cve) := by
        rw [hgroup]; simp
      have hp : (rb, some ra) ∈ withOld [] (sortScoreRows (a ++ b)) :=
        List.mem_of_mem_filter hpair
      refine ⟨rejigChangeRow (rawChange rb (some ra)), ?_, hc⟩
      rw [get_diff_def]
      refine List.mem_filter.mpr ⟨?_, ?_⟩
      · exact List.mem_map_of_mem (fun p => rejigChangeRow (rawChange p.1 p.2)) hp
      · rw [keepChange_some]
        exact bne_iff_ne.mpr hne
  · -- every emitted record's cve is present in both snapshots
    intro rec hrec
    rw [get_diff_def] at hrec
    rcases List.mem_filter.mp hrec with ⟨hmem, hkeep⟩
    rcases List.mem_map.mp hmem with ⟨p, hp, hFp⟩
    rcases p with ⟨r, o⟩
    cases o with
    | none =>
      rw [← hFp, keepChange_none] at hkeep
      exact absurd hkeep (by simp)
    | some o =>
      have hrcve : rec.cve = r.cve := by rw [← hFp]; rfl
      have hpf : (r, some o) ∈ (withOld [] (sortScoreRows (a ++ b))).filter
          (fun p => p.1.cve == rec.cve) :=
        List.mem_filter.mpr ⟨hp, beq_iff_eq.mpr hrcve.symm⟩
      rw [withOld_filter_group rec.cve (sortScoreRows (a ++ b)) []] at hpf
      have hlen2 : 2 ≤ ((sortScoreRows (a ++ b)).filter (fun r => r.cve == rec.cve)).length :=
        consecFrom_none_some_length hpf
      have hlen : ((sortScoreRows (a ++ b)).filter (fun r => r.cve == rec.cve)).length
          = (a.filter (fun r => r.cve == rec.cve)).length
            + (b.filter (fun r => r.cve == rec.cve)).length := by
        have hperm := (sortScoreRows_perm (a ++ b)).filter (fun r => r.cve == rec.cve)
        rw [hperm.length_eq, List.filter_append, List.length_append]
      have hla := nodup_filter_length_le a na rec.cve
      have hlb := nodup_filter_length_le b nb rec.cve
      have hpa : 0 < (a.filter (fun r => r.cve == rec.cve)).length := by omega
      have hpb : 0 < (b.filter (fun r => r.cve == rec.cve)).length := by omega
      rcases List.exists_mem_of_length_pos hpa with ⟨x, hx⟩
      rcases List.exists_mem_of_length_pos hpb with ⟨y, hy⟩
      rcases List.mem_filter.mp hx with ⟨hxa, hxc⟩
      rcases List.mem_filter.mp hy with ⟨hyb, hyc⟩
      exact ⟨⟨x, hxa, beq_iff_eq.mp hxc⟩, ⟨y, hyb, beq_iff_eq.mp hyc⟩⟩
  · -- output ordering: (date, cve) ascending
    have hdf := sortScoreRows_sorted (a ++ b)
    have hpairs : (withOld [] (sortScoreRows (a ++ b))).Pairwise
        (fun p q => rowLe p.1 q.1 = true) := by
      rw [← withOld_map_fst (sortScoreRows (a ++ b)) []] at hdf
      exact List.pairwise_map.mp hdf
    have hmapped : ((withOld [] (sortScoreRows (a ++ b))).map
        (fun p => rejigChangeRow (rawChange p.1 p.2))).Pairwise
        (fun r s => r.date < s.date ∨ (r.date = s.date ∧ strLe r.cve s.cve = true)) := by
      rw [List.pairwise_map]
      refine hpairs.imp ?_
      intro p q h
      exact rowLe_iff.mp h
    rw [get_diff_def]
    exact hmapped.filter keepChange

/-- Witness for C1 at the spec's concrete scenario (0.10/0.50 → 0.12/0.55). -/
theorem get_diff_spec_witness :
    (∀ ra ∈ [(⟨"CVE-A", 1, 1/10, 1/2⟩ : ScoreRow)],
      ∀ rb ∈ [(⟨"CVE-A", 2, 3/25, 11/20⟩ : ScoreRow)], rb.cve = ra.cve →
      ((∃ rec ∈ get_diff [⟨"CVE-A", 1, 1/10, 1/2⟩] [⟨"CVE-A", 2, 3/25, 11/20⟩],
          rec.cve = ra.cve)
        ↔ round5 (rb.epss - ra.epss) ≠ 0))
    ∧ (∀ rec ∈ get_diff [⟨"CVE-A", 1, 1/10, 1/2⟩] [⟨"CVE-A", 2, 3/25, 11/20⟩],
        (∃ ra ∈ [(⟨"CVE-A", 1, 1/10, 1/2⟩ : ScoreRow)], ra.cve = rec.cve)
        ∧ (∃ rb ∈ [(⟨"CVE-A", 2, 3/25, 11/20⟩ : ScoreRow)], rb.cve = rec.cve))
    ∧ (get_diff [⟨"CVE-A", 1, 1/10, 1/2⟩] [⟨"CVE-A", 2, 3/25, 11/20⟩]).Pairwise
        (fun r s => r.date < s.date ∨ (r.date = s.date ∧ strLe r.cve s.cve = true)) :=
  @get_diff_spec [⟨"CVE-A", 1, 1/10, 1/2⟩] [⟨"CVE-A", 2, 3/25, 11/20⟩] 1 2
    (by decide) (by decide) (by decide) (by decide) (by decide)

/-- Counterexample for C4 as stated: `get_diff` re-sorts by date, so
`diff(B, A)` equals `diff(A, B)`; its single record still reports the
change from 0.10 (old) to 0.12 (new); it is not sign-reversed. -/
theorem get_diff_direction_counterexample :
    get_diff [⟨"CVE-A", 2, 3/25, 11/20⟩] [⟨"CVE-A", 1, 1/10, 1/2⟩]
      = get_diff [⟨"CVE-A", 1, 1/10, 1/2⟩] [⟨"CVE-A", 2, 3/25, 11/20⟩]
    ∧ get_diff [⟨"CVE-A", 2, 3/25, 11/20⟩] [⟨"CVE-A", 1, 1/10, 1/2⟩]
      = [⟨"CVE-A", 2, 3/25, 11/20, some 1, some (1/10), some (1/2),
          some (1/50), some 20, some (1/20), some 10⟩]
    ∧ (1/10 : ℚ) ≠ 3/25 := by
  refine ⟨?_, ?_, by norm_num⟩ <;>
    norm_num [get_diff, sortScoreRows, sortB, insertB, rowLe, strLe, charListLe,
      withOld, rawChange, rejigChangeRow, keepChange, round5, round_eq, List.find?]

/-- Counterexample for C2 as stated: on `minDate = 2024-02-01`,
`maxDate = 2024-01-01` (a genuinely inverted range) neither resolver
raises; both return the inverted pair. -/
theorem date_range_counterexample :
    cli_get_date_range (mkDate 2023 3 7) (mkDate 2024 6 1)
        (some (mkDate 2024 2 1)) (some (mkDate 2024 1 1)) none none
      = Except.ok (mkDate 2024 2 1, mkDate 2024 1 1)
    ∧ base_get_date_range (mkDate 2023 3 7) (mkDate 2024 6 1)
        (some (mkDate 2024 2 1)) (some (mkDate 2024 1 1))
      = (mkDate 2024 2 1, mkDate 2024 1 1)
    ∧ mkDate 2024 1 1 < mkDate 2024 2 1 :=
  ⟨rfl, rfl, by decide⟩

/-- Claim C2 (amended) — the CLI resolver returns a supplied pair of
distinct bounds unchanged (no inversion check, no clamping there), and it
raises exactly when the two parsed bounds are equal. -/
theorem cli_get_date_range_spec :
    (∀ (cmin cmax u v : Int), u ≠ v →
        cli_get_date_range cmin cmax (some u) (some v) none none = Except.ok (u, v))
    ∧ (∀ (cmin cmax : Int) (mn mx dt da : Option Int),
        (∃ e, cli_get_date_range cmin cmax mn mx dt da = Except.error e) ↔ mn = mx) := by
  constructor
  · intro cmin cmax u v huv
    simp [cli_get_date_range, huv]
  · intro cmin cmax mn mx dt da
    by_cases h : mn = mx
    · simp [cli_get_date_range, h]
    · cases dt with
      | some d => simp [cli_get_date_range, h]
      | none =>
        cases da with
        | some n => simp [cli_get_date_range, h]
        | none => simp [cli_get_date_range, h]

/-- Witness for C2 (amended) at the claim's concrete dates. -/
theorem cli_get_date_range_spec_witness :
    cli_get_date_range (mkDate 2023 3 7) (mkDate 2024 6 1)
        (some (mkDate 2024 2 1)) (some (mkDate 2024 1 1)) none none
      = Except.ok (mkDate 2024 2 1, mkDate 2024 1 1) :=
  cli_get_date_range_spec.1 (mkDate 2023 3 7) (mkDate 2024 6 1)
    (mkDate 2024 2 1) (mkDate 2024 1 1) (by decide)

/-- Counterexample for C3 as stated: `PolarsClient.filter_scores` matches
the query id `CVE-2024-1` against the row `CVE-2024-1234` (substring
regex), although the row's cve is not an element of the query set;
`epss.filter_dataframe` on the same input keeps nothing. -/
theorem filter_scores_substring_counterexample :
    filter_scores 19700 19800 [⟨"CVE-2024-1234", 19750, 1/2, 1/2⟩]
        ⟨some ["CVE-2024-1"], none, none, none, none⟩
      = [⟨"CVE-2024-1234", 19750, 1/2, 1/2⟩]
    ∧ "CVE-2024-1234" ∉ ["CVE-2024-1"]
    ∧ filter_dataframe [⟨"CVE-2024-1234", 19750, 1/2, 1/2⟩]
        (some ["CVE-2024-1"]) none none none none none none = [] :=
  ⟨rfl, by decide, rfl⟩

/-- Claim C3 (amended) — `epss.filter_dataframe` with a non-empty id set is
an exact set-membership filter on `cve` (the substring behaviour is
confined to `PolarsClient.filter_scores`, per the counterexample). -/
theorem filter_dataframe_exact_membership :
    ∀ (df : List ScoreRow) (ids : List String) (r : ScoreRow), ids ≠ [] →
      (r ∈ filter_dataframe df (some ids) none none none none none none
        ↔ r ∈ df ∧ r.cve ∈ ids) := by
  intro df ids r hids
  have hne : ids.isEmpty = false := by
    cases ids with
    | nil => exact absurd rfl hids
    | cons x t => rfl
  simp [filter_dataframe, idsTruthy, qTruthy, dTruthy, hne, List.mem_filter]

/-- Witness for C3 (amended) at a concrete table and id set. -/
theorem filter_dataframe_exact_membership_witness :
    (⟨"CVE-2024-0001", 0, 1, 1⟩ : ScoreRow) ∈ filter_dataframe [⟨"CVE-2024-0001", 0, 1, 1⟩]
        (some ["CVE-2024-0001"]) none none none none none none
      ↔ (⟨"CVE-2024-0001", 0, 1, 1⟩ : ScoreRow) ∈ [(⟨"CVE-2024-0001", 0, 1, 1⟩ : ScoreRow)]
        ∧ "CVE-2024-0001" ∈ ["CVE-2024-0001"] :=
  filter_dataframe_exact_membership [⟨"CVE-2024-0001", 0, 1, 1⟩] ["CVE-2024-0001"]
    ⟨"CVE-2024-0001", 0, 1, 1⟩ (by decide)

/-- Claim C9 — both filters test numeric bounds for Python truthiness, so a
bound equal to `0.0` imposes no constraint: `filter_dataframe` with only
zero bounds returns the table unchanged, and `filter_scores` behaves
identically with a zero bound and with no bound. -/
theorem zero_bound_unenforced :
    (∀ df : List ScoreRow,
        filter_dataframe df none none (some 0) none (some 0) none none = df)
    ∧ (∀ (mn mx : Int) (df : List ScoreRow) (ids : Option (List String)) (ms mp : Option ℚ),
        filter_scores mn mx df ⟨ids, ms, some 0, mp, some 0⟩
          = filter_scores mn mx df ⟨ids, ms, none, mp, none⟩) := by
  constructor
  · intro df
    simp [filter_dataframe, qTruthy, idsTruthy, dTruthy]
  · intro mn mx df ids ms mp
    simp [filter_scores, qTruthy]

/-- Claim C10 — when a changelog file for `second_date` exists, the result
is that file's rows filtered by the query, with no snapshot access and no
dependence on `first_date`; and a file first materialized under one query
is reused verbatim (filtered only) by any later call with any other
query, even against different snapshots or a different first date. -/
theorem get_score_diff_dataframe_cached :
    (∀ (store : SnapStore) (clog : Clog) (d1 d2 : Int) (q : Option Query)
        (rows : List ChangeRow), clog d2 = some rows →
        get_score_diff_dataframe store clog d1 d2 q
          = (filter_changelog_with_query rows q, clog))
    ∧ (∀ (store store' : SnapStore) (clog : Clog) (d1 d1' d2 : Int) (q1 q2 : Option Query),
        clog d2 = none →
        (get_score_diff_dataframe store' ((get_score_diff_dataframe store clog d1 d2 q1).2)
            d1' d2 q2).1
          = filter_changelog_with_query ((get_score_diff_dataframe store clog d1 d2 q1).1) q2) := by
  constructor
  · intro store clog d1 d2 q rows h
    simp [get_score_diff_dataframe, h]
  · intro store store' clog d1 d1' d2 q1 q2 h
    simp [get_score_diff_dataframe, h]

theorem gsdd_fst_congr (store : SnapStore) {clog clog' : Clog} (d1 d2 : Int)
    (q : Option Query) (h : clog d2 = clog' d2) :
    (get_score_diff_dataframe store clog d1 d2 q).1
      = (get_score_diff_dataframe store clog' d1 d2 q).1 := by
  unfold get_score_diff_dataframe
  rw [h]
  cases clog' d2 <;> rfl

theorem gsdd_snd_other (store : SnapStore) (clog : Clog) (d1 d2 k : Int)
    (q : Option Query) (h : k ≠ d2) :
    (get_score_diff_dataframe store clog d1 d2 q).2 k = clog k := by
  unfold get_score_diff_dataframe
  cases hc : clog d2 with
  | some rows => rfl
  | none => simp [h]

theorem iter_dates_in_range_three (d : Int) :
    iter_dates_in_range d (d + 2) = [d, d + 1, d + 2] := by
  have h3 : (d + 2 - d + 1).toNat = 3 := by omega
  simp [iter_dates_in_range, h3, List.range_succ]

/-- Claim C5 (amended) — for three *consecutive* dates `d`, `d+1`, `d+2`,
concatenating the two adjacent-pair diffs (each computed against the same
initial changelog store) and re-sorting by `(date, cve)` equals
`get_historical_diff_dataframe` over `[d, d+2]` with `preserve_order`.
(A fresh materialization by the first pair is keyed under `d+1` and
therefore never read by the second pair.) -/
theorem get_historical_diff_chain (store : SnapStore) (clog : Clog)
    (q : Option Query) (d : Int) :
    sortChangeRows ((get_score_diff_dataframe store clog d (d + 1) q).1
        ++ (get_score_diff_dataframe store clog (d + 1) (d + 2) q).1)
      = (get_historical_diff_dataframe store clog q d (d + 2) true).1 := by
  have hpairs : iter_pairwise (iter_dates_in_range d (d + 2)) = [(d, d + 1), (d + 1, d + 2)] := by
    rw [iter_dates_in_range_three]
    rfl
  have hsecond :
      (get_score_diff_dataframe store
          ((get_score_diff_dataframe store clog d (d + 1) q).2) (d + 1) (d + 2) q).1
        = (get_score_diff_dataframe store clog (d + 1) (d + 2) q).1 :=
    gsdd_fst_congr store (d + 1) (d + 2) q
      (gsdd_snd_other store clog d (d + 1) (d + 2) q (by omega))
  unfold get_historical_diff_dataframe iter_score_diff_dataframes
  rw [hpairs]
  unfold iter_score_diff_go
  simp only [List.flatten, List.append_nil, if_true]
  rw [hsecond]

/-- Counterexample for C5 as stated: for the non-consecutive dates
d1 = 1 < d2 = 2 < d3 = 4 (all snapshots cached, no changelog files),
concatenating `diff(d1, d2)` and `diff(d2, d3)` and re-sorting does not
equal the changelog built over [d1, d3]: the builder walks *every*
calendar date, so its record carries `old_date = 3` where the pairwise
diff's record carries `old_date = 2`. -/
theorem get_historical_diff_chain_counterexample :
    sortChangeRows ((get_score_diff_dataframe exStore5 emptyClog 1 2 none).1
        ++ (get_score_diff_dataframe exStore5 emptyClog 2 4 none).1)
      ≠ (get_historical_diff_dataframe exStore5 emptyClog none 1 4 true).1 := by
  have hL : sortChangeRows ((get_score_diff_dataframe exStore5 emptyClog 1 2 none).1
        ++ (get_score_diff_dataframe exStore5 emptyClog 2 4 none).1)
      = [⟨"CVE-A", 4, 1/5, 3/5, some 2, some (1/10), some (1/2),
          some (1/10), some 100, some (1/10), some 20⟩] := by
    norm_num [get_score_diff_dataframe, get_score_dataframe, filter_dataframe_with_query,
      get_diff, sortScoreRows, sortB, insertB, rowLe, strLe, charListLe, withOld,
      rawChange, rejigChangeRow, keepChange, round5, round_eq, List.find?,
      exStore5, emptyClog, sortChangeRows, changeLe]
  have hR : (get_historical_diff_dataframe exStore5 emptyClog none 1 4 true).1
      = [⟨"CVE-A", 4, 1/5, 3/5, some 3, some (1/10), some (1/2),
          some (1/10), some 100, some (1/10), some 20⟩] := by
    norm_num [get_historical_diff_dataframe, iter_score_diff_dataframes, iter_score_diff_go,
      iter_dates_in_range, iter_pairwise, List.range_succ,
      get_score_diff_dataframe, get_score_dataframe, filter_dataframe_with_query,
      get_diff, sortScoreRows, sortB, insertB, rowLe, strLe, charListLe, withOld,
      rawChange, rejigChangeRow, keepChange, round5, round_eq, List.find?,
      exStore5, emptyClog, sortChangeRows, changeLe]
  rw [hL, hR]
  norm_num

/-- Evidence for C6 (code bug) — `get_score_range_tuple_by_cve_id` can never
return a pair: `get_score_range_dataframe` sorts the per-cve aggregate by
`DEFAULT_SORTING_KEY = ('date', 'cve')`, but the aggregated frame has no
`date` column, so the sort raises `ColumnNotFoundError` on every call
with the default `preserve_order=True` — here shown at the concrete
scenario where the claim expects `(0.10, 0.12)` (and where, even ignoring
the crash, the aggregation reads only the *new* values, giving
(0.12, 0.12)). -/
theorem get_score_range_tuple_raises :
    get_score_range_tuple_by_cve_id c6Store emptyClog "CVE-E1" 0 1
      = Except.error "ColumnNotFoundError: date" := by
  norm_num [get_score_range_tuple_by_cve_id, get_score_range_dataframe,
    get_historical_diff_dataframe, iter_score_diff_dataframes, iter_score_diff_go,
    iter_dates_in_range, iter_pairwise, List.range_succ,
    get_score_diff_dataframe, get_score_dataframe, filter_dataframe_with_query,
    filter_dataframe, idsTruthy, qTruthy, dTruthy,
    get_diff, sortScoreRows, sortB, insertB, rowLe, strLe, charListLe, withOld,
    rawChange, rejigChangeRow, keepChange, round5, round_eq, List.find?,
    c6Store, emptyClog, score_range_rows, uniqueCves, qMin, qMax,
    sortRangeRows, rangeColumns]
  rfl

/-- Witness for C4 (amended) at the spec's concrete snapshots. -/
theorem get_diff_comm_witness :
    get_diff [⟨"CVE-A", 1, 1/10, 1/2⟩] [⟨"CVE-A", 2, 3/25, 11/20⟩]
      = get_diff [⟨"CVE-A", 2, 3/25, 11/20⟩] [⟨"CVE-A", 1, 1/10, 1/2⟩] :=
  @get_diff_comm [⟨"CVE-A", 1, 1/10, 1/2⟩] [⟨"CVE-A", 2, 3/25, 11/20⟩] 1 2
    (by decide) (by decide) (by decide) (by decide) (by decide)

/-- Witness for C10 at a concrete cached changelog. -/
theorem get_score_diff_dataframe_cached_witness :
    get_score_diff_dataframe (fun _ => []) c10Clog 19000 19724 none
      = (filter_changelog_with_query c10Rows none, c10Clog) :=
  get_score_diff_dataframe_cached.1 (fun _ => []) c10Clog 19000 19724 none c10Rows rfl
